import Mathlib

/-!
Shallow embedding of the RTOS trace decoder and statistics aggregator of
src/src/utils/binaryParser.ts.

Modelling conventions:
- byte buffers are lists of natural numbers; every byte read is reduced
  modulo 256, which is what Buffer.readUInt8 / readBigUInt64LE return;
- BigInt timestamps are Nat (all subtractions in the source are guarded
  by a comparison, so Nat subtraction agrees with BigInt subtraction);
- JavaScript Map objects are association lists with mapGet / mapSet /
  mapDelete (iteration order of the maps is never observable in the
  decoder output, only membership and the stored values are);
- the one floating point value, cpuLoad, is an exact rational; the
  clamp Math.max(0, Math.min(100, x)) is applied after the exact
  BigInt computation, as in the source;
- JavaScript strings are Lean strings; name payloads are decoded
  pointwise (Char.ofNat of each byte), which agrees with the UTF-8
  decoding of the source on ASCII payloads and preserves emptiness;
- the local variable cpuFrequency of the source (number | null, where
  parseInt can produce NaN) is an Option (Option Int): none is null,
  some none is NaN, some (some v) is a parsed value.
-/

namespace RtosTrace

/-- A preemption entry: an interrupt interval nested in a task instance.
An endTime of 0 marks a still-open preemption, as in the source where
the entry is created with endTime = 0n. -/
structure Preemption where
  startTime : Nat
  endTime : Nat
  isrName : String
  deriving DecidableEq

/-- A finalized timeline instance (task slice, ISR slice, gap or create
marker), mirroring the TaskData records pushed by parseBinaryLogFile. -/
structure TaskData where
  name : String
  startTime : Nat
  endTime : Nat
  preemptions : List Preemption
  deriving DecidableEq

/-- Per-name statistics, mirroring the TaskStats record of the source.
cpuLoad is the single floating point field, modelled exactly. -/
structure TaskStats where
  totalRunTime : Nat
  actualRunTime : Nat
  runCount : Nat
  cpuLoad : Rat
  averageRunTime : Nat
  preemptionCount : Nat
  totalPreemptionTime : Nat
  deriving DecidableEq

/-- Map.get: the value stored at key k, if present. -/
def mapGet (k : Nat) : List (Nat × α) → Option α
  | [] => none
  | e :: m => if e.1 = k then some e.2 else mapGet k m

/-- Map.set: store v at key k, overwriting any previous binding. -/
def mapSet (k : Nat) (v : α) (m : List (Nat × α)) : List (Nat × α) :=
  (k, v) :: m.filter (fun e => e.1 != k)

/-- Map.delete: remove the binding of key k. -/
def mapDelete (k : Nat) (m : List (Nat × α)) : List (Nat × α) :=
  m.filter (fun e => e.1 != k)

-- Statistics aggregator (calculateTaskStats and createDefaultStats).

/-- createDefaultStats: the all-zero statistics record. -/
def defaultStats : TaskStats :=
  { totalRunTime := 0, actualRunTime := 0, runCount := 0, cpuLoad := 0,
    averageRunTime := 0, preemptionCount := 0, totalPreemptionTime := 0 }

/-- Duration of one instance:
task.endTime >= task.startTime ? task.endTime - task.startTime : 0n. -/
def instDuration (t : TaskData) : Nat :=
  if t.startTime ≤ t.endTime then t.endTime - t.startTime else 0

/-- Duration of one preemption entry:
p.endTime > p.startTime ? p.endTime - p.startTime : 0n. -/
def preemptionDuration (p : Preemption) : Nat :=
  if p.startTime < p.endTime then p.endTime - p.startTime else 0

/-- The reduce over task.preemptions accumulating preemption durations. -/
def rawSlicePreemption (t : TaskData) : Nat :=
  t.preemptions.foldl (fun acc p => acc + preemptionDuration p) 0

/-- preemptionTimeForThisSlice after the clamp: inside the nonempty
branch the source replaces the sum by the instance duration whenever
the sum exceeds it; with an empty preemption list it stays 0. -/
def slicePreemption (t : TaskData) : Nat :=
  if 0 < t.preemptions.length then
    if instDuration t < rawSlicePreemption t then instDuration t
    else rawSlicePreemption t
  else 0

/-- The single pass over a name group accumulating
(totalRunTime, actualRunTime, totalPreemptionTime, preemptionCount).
The source adds preemptionCount and totalPreemptionTime only inside the
nonempty branch, where they equal the unconditional additions used here
because slicePreemption and the list length are 0 on the empty list. -/
def accumGroup (insts : List TaskData) : Nat × Nat × Nat × Nat :=
  insts.foldl
    (fun acc t =>
      (acc.1 + instDuration t,
       acc.2.1 + (instDuration t - slicePreemption t),
       acc.2.2.1 + slicePreemption t,
       acc.2.2.2 + t.preemptions.length))
    (0, 0, 0, 0)

/-- Math.max on the exact rationals modelling JavaScript numbers. -/
def jsMax (a b : Rat) : Rat := if a ≤ b then b else a

/-- Math.min on the exact rationals modelling JavaScript numbers. -/
def jsMin (a b : Rat) : Rat := if a ≤ b then a else b

theorem jsMax_eq_max (a b : Rat) : jsMax a b = max a b := (max_def a b).symm

theorem jsMin_eq_min (a b : Rat) : jsMin a b = min a b := (min_def a b).symm

/-- Statistics of one name group, given the timeline span width.
cpuLoad = Number(actualRunTime * 10000n / span) / 100 then
Math.max(0, Math.min(100, cpuLoad)); the exact integer quotient is
taken first, the division by 100 afterwards, as in the source. -/
def groupStats (span : Nat) (insts : List TaskData) : TaskStats :=
  let acc := accumGroup insts
  { totalRunTime := acc.1,
    actualRunTime := acc.2.1,
    runCount := insts.length,
    cpuLoad := jsMax 0 (jsMin 100 (Rat.divInt ((acc.2.1 * 10000 / span : Nat) : Int) 100)),
    averageRunTime := if 0 < insts.length then acc.2.1 / insts.length else 0,
    preemptionCount := acc.2.2.2,
    totalPreemptionTime := acc.2.2.1 }

/-- calculateTaskStats: compute the timeline span with the two reduce
folds of the source, zero out everything on a degenerate span, and
otherwise give every instance the statistics of its name group.  The
source attaches one shared stats object to every instance of a name by
mutation; this model returns each instance paired with the (equal)
stats value of its group, the group being all instances of that name
in order, as produced by the Map-based grouping of the source. -/
def calculateTaskStats (tasks : List TaskData) : List (TaskData × TaskStats) :=
  match tasks with
  | [] => []
  | t0 :: _ =>
    let timelineStart :=
      tasks.foldl (fun m t => if t.startTime < m then t.startTime else m) t0.startTime
    let timelineEnd :=
      tasks.foldl (fun m t => if m < t.endTime then t.endTime else m) t0.endTime
    if (timelineEnd : Int) - (timelineStart : Int) ≤ 0 then
      tasks.map (fun t => (t, defaultStats))
    else
      tasks.map (fun t =>
        (t, groupStats (timelineEnd - timelineStart)
              (tasks.filter (fun u => u.name == t.name))))

-- Decoder state machine (parseBinaryLogFile).

/-- The mutable decode state of parseBinaryLogFile: the emitted
instance list, the two symbol tables, the clock frequency variable
(none is null, some none is NaN from parseInt, some (some v) is a
parsed value), lastEndTime, the two open-interval maps and the active
task id. -/
structure ParserState where
  tasks : List TaskData
  taskNameMap : List (Nat × String)
  isrNameMap : List (Nat × String)
  cpuFrequency : Option (Option Int)
  lastEndTime : Option Nat
  taskStartMap : List (Nat × (Nat × List Preemption))
  isrStartMap : List (Nat × Nat)
  activeTaskId : Option Nat
  deriving DecidableEq

/-- The initial decode state of one parseBinaryLogFile invocation. -/
def initState : ParserState :=
  { tasks := [], taskNameMap := [], isrNameMap := [], cpuFrequency := none,
    lastEndTime := none, taskStartMap := [], isrStartMap := [], activeTaskId := none }

/-- Name payload decoding.  The source decodes the bytes as UTF-8; this
model decodes pointwise, which agrees on ASCII payloads and maps a
payload to the empty string exactly when it is empty. -/
def decodeName (bs : List Nat) : String :=
  String.mk (bs.map (fun b => Char.ofNat (b % 256)))

/-- s.startsWith(pre), decided on the underlying character lists. -/
def strBeginsWith (s pre : String) : Bool :=
  List.isPrefixOf pre.data s.data

/-- s.substring(n): drop the first n characters. -/
def strDrop (s : String) (n : Nat) : String :=
  String.mk (s.data.drop n)

/-- Digit run of JavaScript parseInt: the leading decimal digits, none
when there is no leading digit. -/
def leadingDigitsVal (cs : List Char) : Option Nat :=
  let ds := cs.takeWhile Char.isDigit
  if ds = [] then none
  else some (ds.foldl (fun a c => a * 10 + (c.toNat - 48)) 0)

/-- JavaScript parseInt(s, 10): skip leading whitespace, take an
optional sign and the leading decimal digits; none models NaN. -/
def parseIntDec (s : String) : Option Int :=
  let cs := s.toList.dropWhile (fun c => c = ' ' ∨ c = '\t' ∨ c = '\n' ∨ c = '\r')
  match cs with
  | '-' :: rest => (leadingDigitsVal rest).map (fun n => -(n : Int))
  | '+' :: rest => (leadingDigitsVal rest).map (fun n => (n : Int))
  | _ => (leadingDigitsVal cs).map (fun n => (n : Int))

/-- taskNameMap.get(id) || TaskID_id.  The JavaScript || also takes the
fallback when the stored name is the empty string, because the empty
string is falsy. -/
def resolveTaskName (s : ParserState) (id : Nat) : String :=
  match mapGet id s.taskNameMap with
  | some n => if n = "" then "TaskID_" ++ toString id else n
  | none => "TaskID_" ++ toString id

/-- isrNameMap.get(id) || ISRID_id, with the same falsy fallback. -/
def resolveIsrName (s : ParserState) (id : Nat) : String :=
  match mapGet id s.isrNameMap with
  | some n => if n = "" then "ISRID_" ++ toString id else n
  | none => "ISRID_" ++ toString id

/-- The gap block run before the event switch: when the event has the
start flag set or is a task-create and the timestamp exceeds the set
lastEndTime, push a _RTOS_ instance spanning the difference.  The
inner positivity test on the difference mirrors the redundant
if (gap > 0n) of the source. -/
def maybeGap (s : ParserState) (tb t : Nat) : ParserState :=
  match s.lastEndTime with
  | some le =>
    if (tb &&& 128 ≠ 0 ∨ tb &&& 127 = 3) ∧ le < t then
      if 0 < t - le then
        { s with tasks := s.tasks ++ [(⟨"_RTOS_", le, t, []⟩ : TaskData)] }
      else s
    else s
  | none => s

/-- Task START: open the id with an empty preemption list (overwriting
any previous open interval), make it the active task, clear lastEndTime. -/
def taskStartEvent (s : ParserState) (id t : Nat) : ParserState :=
  { s with taskStartMap := mapSet id (t, []) s.taskStartMap,
           activeTaskId := some id, lastEndTime := none }

/-- Task END: with an open interval, emit the instance, close the id and
set lastEndTime; without one, drop the record.  In both cases the
active task id is cleared when it equals the event id. -/
def taskEndEvent (s : ParserState) (id t : Nat) : ParserState :=
  let s1 :=
    match mapGet id s.taskStartMap with
    | some si =>
      { s with tasks := s.tasks ++ [(⟨resolveTaskName s id, si.1, t, si.2⟩ : TaskData)],
               taskStartMap := mapDelete id s.taskStartMap,
               lastEndTime := some t }
    | none => s
  if s1.activeTaskId = some id then { s1 with activeTaskId := none } else s1

/-- Task CREATE: emit the zero-duration RTOS:Create marker and set
lastEndTime. -/
def taskCreateEvent (s : ParserState) (t : Nat) : ParserState :=
  { s with tasks := s.tasks ++ [(⟨"RTOS:Create", t, t, []⟩ : TaskData)],
           lastEndTime := some t }

/-- ISR ENTER: record the enter timestamp (overwriting any previous one)
and, when a task is active and open, append a preemption entry with
endTime 0 to it. -/
def isrEnterEvent (s : ParserState) (id t : Nat) : ParserState :=
  let isrName := resolveIsrName s id
  let s1 := { s with isrStartMap := mapSet id t s.isrStartMap }
  match s.activeTaskId with
  | some a =>
    match mapGet a s.taskStartMap with
    | some si =>
      { s1 with taskStartMap :=
          mapSet a (si.1, si.2 ++ [(⟨t, 0, isrName⟩ : Preemption)]) s1.taskStartMap }
    | none => s1
  | none => s1

/-- Update the first entry of the list satisfying the test. -/
def updateFirst (f : α → Bool) (g : α → α) : List α → List α
  | [] => []
  | x :: xs => if f x then g x :: xs else x :: updateFirst f g xs

/-- findLast of an open preemption of this ISR name, closing it at t. -/
def closeLastOpenPreemption (isrName : String) (t : Nat) (ps : List Preemption) : List Preemption :=
  (updateFirst (fun p => p.isrName == isrName && p.endTime == 0)
    (fun p => { p with endTime := t }) ps.reverse).reverse

/-- ISR EXIT: with a recorded enter timestamp, emit the ISR instance,
close the id and resolve the matching open preemption of the active
task.  The source guards with if (startTime), which is also false for
the falsy BigInt 0n, so an enter recorded at timestamp 0 is treated
like a missing one (and stays in the map). -/
def isrExitEvent (s : ParserState) (id t : Nat) : ParserState :=
  let isrName := resolveIsrName s id
  match mapGet id s.isrStartMap with
  | some st =>
    if st = 0 then s
    else
      let s1 := { s with tasks := s.tasks ++ [(⟨"ISR:" ++ isrName, st, t, []⟩ : TaskData)],
                         isrStartMap := mapDelete id s.isrStartMap }
      match s1.activeTaskId with
      | some a =>
        match mapGet a s1.taskStartMap with
        | some si =>
          { s1 with taskStartMap :=
              mapSet a (si.1, closeLastOpenPreemption isrName t si.2) s1.taskStartMap }
        | none => s1
      | none => s1
  | none => s

/-- One event record: run the gap block, then dispatch on bits 0-6 of
the type byte (1 task switch, 3 create, 2 interrupt; anything else is
skipped), with bit 7 selecting start/enter against end/exit. -/
def processEvent (s : ParserState) (tb id t : Nat) : ParserState :=
  let s1 := maybeGap s tb t
  if tb &&& 127 = 1 then
    if tb &&& 128 ≠ 0 then taskStartEvent s1 id t else taskEndEvent s1 id t
  else if tb &&& 127 = 3 then taskCreateEvent s1 t
  else if tb &&& 127 = 2 then
    if tb &&& 128 ≠ 0 then isrEnterEvent s1 id t else isrExitEvent s1 id t
  else s1

/-- One setup record: 0x70 task name table, 0x71 ISR name table, 0x7F
info (a CLK: payload assigns the parseInt result, NaN included, to the
clock frequency variable); any other code in the reserved range is
skipped. -/
def processSetup (s : ParserState) (code id : Nat) (nameBytes : List Nat) : ParserState :=
  let name := decodeName nameBytes
  if code = 0x70 then { s with taskNameMap := mapSet id name s.taskNameMap }
  else if code = 0x71 then { s with isrNameMap := mapSet id name s.isrNameMap }
  else if code = 0x7F then
    if strBeginsWith name "CLK:" then
      { s with cpuFrequency := some (parseIntDec (strDrop name 4)) }
    else s
  else s

/-- A complete record of the stream: either a setup record with its
name payload bytes, or a fixed-width event record. -/
inductive Record where
  | setup (code id : Nat) (nameBytes : List Nat)
  | event (tb id t : Nat)
  deriving DecidableEq

/-- Process one complete record. -/
def processRecord (s : ParserState) (r : Record) : ParserState :=
  match r with
  | .setup code id nameBytes => processSetup s code id nameBytes
  | .event tb id t => processEvent s tb id t

/-- Process a list of records in order. -/
def runRecords (s : ParserState) (rs : List Record) : ParserState :=
  rs.foldl processRecord s

/-- Buffer.readUInt8. -/
def readU8 (l : List Nat) (i : Nat) : Nat := l.getD i 0 % 256

/-- Buffer.readBigUInt64LE: eight bytes, little endian. -/
def readU64LE (l : List Nat) (i : Nat) : Nat :=
  readU8 l i + readU8 l (i + 1) * 256 + readU8 l (i + 2) * 256 ^ 2 +
    readU8 l (i + 3) * 256 ^ 3 + readU8 l (i + 4) * 256 ^ 4 +
    readU8 l (i + 5) * 256 ^ 5 + readU8 l (i + 6) * 256 ^ 6 +
    readU8 l (i + 7) * 256 ^ 7

/-- The while loop of parseBinaryLogFile over the remaining bytes.
The fuel argument only makes the recursion structural; one unit is
spent per iteration and every iteration consumes at least three bytes,
so a fuel equal to the buffer length never runs out.  A packet type in
0x70-0x7F is a setup record of 3 + nameLen bytes, anything else is a
10-byte event record; when the remaining bytes are insufficient for
the declared record the loop stops and keeps the state decoded so far. -/
def parseSteps : Nat → ParserState → List Nat → ParserState
  | 0, s, _ => s
  | _ + 1, s, [] => s
  | fuel + 1, s, b :: rest =>
    let l := b :: rest
    let packetType := readU8 l 0
    if 0x70 ≤ packetType ∧ packetType ≤ 0x7F then
      if l.length < 3 then s
      else
        let id := readU8 l 1
        let nameLen := readU8 l 2
        if l.length < 3 + nameLen then s
        else
          parseSteps fuel
            (processRecord s (.setup packetType id ((l.drop 3).take nameLen)))
            (l.drop (3 + nameLen))
    else
      if l.length < 10 then s
      else
        parseSteps fuel
          (processRecord s (.event packetType (readU8 l 1) (readU64LE l 2)))
          (l.drop 10)

/-- The decode loop on a whole buffer. -/
def parseLoop (s : ParserState) (l : List Nat) : ParserState :=
  parseSteps l.length s l

/-- The record tokenization implicit in the loop: the maximal list of
complete records readable from the front of the buffer. -/
def tokenizeSteps : Nat → List Nat → List Record
  | 0, _ => []
  | _ + 1, [] => []
  | fuel + 1, b :: rest =>
    let l := b :: rest
    let packetType := readU8 l 0
    if 0x70 ≤ packetType ∧ packetType ≤ 0x7F then
      if l.length < 3 then []
      else
        let id := readU8 l 1
        let nameLen := readU8 l 2
        if l.length < 3 + nameLen then []
        else
          Record.setup packetType id ((l.drop 3).take nameLen) ::
            tokenizeSteps fuel (l.drop (3 + nameLen))
    else
      if l.length < 10 then []
      else
        Record.event packetType (readU8 l 1) (readU64LE l 2) ::
          tokenizeSteps fuel (l.drop 10)

/-- The complete records at the front of a buffer. -/
def tokenize (l : List Nat) : List Record :=
  tokenizeSteps l.length l

/-- Insert one instance into a startTime-sorted list, before any later
instance with an equal key: together with sortByStart this is the
stable sort by startTime that the comparator of the source performs. -/
def insertByStart (t : TaskData) : List TaskData → List TaskData
  | [] => [t]
  | u :: us =>
    if t.startTime ≤ u.startTime then t :: u :: us else u :: insertByStart t us

/-- Stable sort of the instance list by startTime. -/
def sortByStart : List TaskData → List TaskData
  | [] => []
  | t :: ts => insertByStart t (sortByStart ts)

/-- The tail of parseBinaryLogFile after the loop: return [] when no
instance was produced, else the instances sorted by startTime. -/
def finalizeTasks (ts : List TaskData) : List TaskData :=
  if ts = [] then [] else sortByStart ts

/-- parseBinaryLogFile: decode the buffer and return the sorted
instance list (statistics are attached by calculateTaskStats, modelled
as the separate pairing parseWithStats). -/
def parseBinaryLogFile (content : List Nat) : List TaskData :=
  finalizeTasks (parseLoop initState content).tasks

/-- The instances together with the statistics attached to them. -/
def parseWithStats (content : List Nat) : List (TaskData × TaskStats) :=
  calculateTaskStats (parseBinaryLogFile content)

-- Helper lemmas.

theorem foldl_add_map (f : α → Nat) :
    ∀ (l : List α) (a : Nat),
      l.foldl (fun acc x => acc + f x) a = a + (l.map f).sum := by
  intro l
  induction l with
  | nil => intro a; simp
  | cons x l ih =>
    intro a
    simp only [List.foldl_cons, List.map_cons, List.sum_cons, ih]
    omega

theorem rawSlice_eq_sum (t : TaskData) :
    rawSlicePreemption t = (t.preemptions.map preemptionDuration).sum := by
  simp [rawSlicePreemption, foldl_add_map]

-- C5.

/-- C5: the preemption time attributed to one instance during
aggregation is clamped to at most the duration of the instance, so the
contribution of that instance to actualRunTime is non-negative. -/
theorem claim5_slice_clamped (t : TaskData) :
    slicePreemption t ≤ instDuration t ∧
      (0 : Int) ≤ (instDuration t : Int) - (slicePreemption t : Int) := by
  have h : slicePreemption t ≤ instDuration t := by
    unfold slicePreemption
    split
    · split <;> omega
    · omega
  exact ⟨h, by omega⟩

-- C10.

/-- C10: a preemption entry left with endTime 0 contributes zero
preemption time, leaves the clamped slice time and hence the
actualRunTime contribution of the instance unchanged, but still counts
as one entry of the preemption list. -/
theorem claim10_open_preemption (t : TaskData) (p : Preemption)
    (hp : p ∈ t.preemptions) (he : p.endTime = 0) :
    preemptionDuration p = 0 ∧
      slicePreemption t
        = slicePreemption { t with preemptions := t.preemptions.erase p } ∧
      instDuration t - slicePreemption t
        = instDuration { t with preemptions := t.preemptions.erase p }
            - slicePreemption { t with preemptions := t.preemptions.erase p } ∧
      t.preemptions.length = (t.preemptions.erase p).length + 1 := by
  have hd : preemptionDuration p = 0 := by
    unfold preemptionDuration
    rw [he]
    simp
  have hperm : t.preemptions.Perm (p :: t.preemptions.erase p) :=
    List.perm_cons_erase hp
  have hsum : (t.preemptions.map preemptionDuration).sum
      = ((t.preemptions.erase p).map preemptionDuration).sum := by
    have := (hperm.map preemptionDuration).sum_eq
    simp only [List.map_cons, List.sum_cons, hd, Nat.zero_add] at this
    exact this
  have hraw : rawSlicePreemption t
      = rawSlicePreemption { t with preemptions := t.preemptions.erase p } := by
    rw [rawSlice_eq_sum, rawSlice_eq_sum]
    exact hsum
  have hdur : instDuration { t with preemptions := t.preemptions.erase p }
      = instDuration t := by
    simp [instDuration]
  have hlen : 0 < t.preemptions.length := List.length_pos.mpr (by
    intro hnil
    rw [hnil] at hp
    exact (List.not_mem_nil p) hp)
  have hlen2 : t.preemptions.length = (t.preemptions.erase p).length + 1 := by
    have := List.length_erase_of_mem hp
    omega
  have hslice : slicePreemption t
      = slicePreemption { t with preemptions := t.preemptions.erase p } := by
    unfold slicePreemption
    rw [hdur, ← hraw]
    by_cases h0 : 0 < (t.preemptions.erase p).length
    · simp [hlen, h0]
    · have hz : (t.preemptions.erase p).length = 0 := by omega
      have hnil : t.preemptions.erase p = [] := List.length_eq_zero.mp hz
      have hraw0 : rawSlicePreemption t = 0 := by
        rw [hraw, rawSlice_eq_sum]
        simp [hnil]
      simp [hlen, h0, hraw0]
  exact ⟨hd, hslice, by rw [hslice, hdur], hlen2⟩

/-- Witness for C10 at a concrete instance with one open preemption. -/
theorem claim10_witness :
    preemptionDuration ⟨3, 0, "U"⟩ = 0 ∧
      slicePreemption ⟨"A", 0, 10, [⟨3, 0, "U"⟩]⟩
        = slicePreemption ⟨"A", 0, 10, List.erase ([⟨3, 0, "U"⟩] : List Preemption) ⟨3, 0, "U"⟩⟩ ∧
      instDuration ⟨"A", 0, 10, [⟨3, 0, "U"⟩]⟩
          - slicePreemption ⟨"A", 0, 10, [⟨3, 0, "U"⟩]⟩
        = instDuration ⟨"A", 0, 10, List.erase ([⟨3, 0, "U"⟩] : List Preemption) ⟨3, 0, "U"⟩⟩
            - slicePreemption ⟨"A", 0, 10, List.erase ([⟨3, 0, "U"⟩] : List Preemption) ⟨3, 0, "U"⟩⟩ ∧
      List.length [(⟨3, 0, "U"⟩ : Preemption)]
        = (List.erase ([⟨3, 0, "U"⟩] : List Preemption) ⟨3, 0, "U"⟩).length + 1 :=
  claim10_open_preemption ⟨"A", 0, 10, [⟨3, 0, "U"⟩]⟩ ⟨3, 0, "U"⟩ (by decide) rfl

-- C4.

/-- C4: cpuLoad of every name group is the exact scaled integer
quotient actualRunTime * 10000 / span, divided by 100 and clamped, and
every stored cpuLoad lies in [0, 100] for every input. -/
theorem claim4_cpuload :
    (∀ (span : Nat) (insts : List TaskData), 0 < span →
        (groupStats span insts).cpuLoad
          = max 0 (min 100
              ((((groupStats span insts).actualRunTime * 10000 / span : Nat) : Rat) / 100)))
    ∧ ∀ (tasks : List TaskData) (t : TaskData) (st : TaskStats),
        (t, st) ∈ calculateTaskStats tasks → 0 ≤ st.cpuLoad ∧ st.cpuLoad ≤ 100 := by
  have hload : ∀ (span : Nat) (insts : List TaskData),
      (groupStats span insts).cpuLoad
        = max 0 (min 100
            ((((groupStats span insts).actualRunTime * 10000 / span : Nat) : Rat) / 100)) := by
    intro span insts
    simp only [groupStats, jsMax_eq_max, jsMin_eq_min, Rat.divInt_eq_div]
    push_cast
    rfl
  constructor
  · intro span insts _
    exact hload span insts
  · intro tasks t st h
    match tasks with
    | [] => simp [calculateTaskStats] at h
    | t0 :: rest =>
      simp only [calculateTaskStats] at h
      split at h
      · obtain ⟨u, _, huv⟩ := List.mem_map.1 h
        have hst : st = defaultStats := by
          rw [Prod.mk.injEq] at huv
          exact huv.2.symm
        rw [hst]
        constructor <;> simp [defaultStats]
      · obtain ⟨u, _, huv⟩ := List.mem_map.1 h
        rw [Prod.mk.injEq] at huv
        rw [← huv.2, hload]
        refine ⟨le_max_left _ _, max_le (by norm_num) (min_le_left _ _)⟩

/-- Witness for C4 at a one-instance trace whose timestamps sit at the
unsigned 64-bit maximum. -/
theorem claim4_witness :
    ((groupStats 1 []).cpuLoad
        = max 0 (min 100
            ((((groupStats 1 []).actualRunTime * 10000 / 1 : Nat) : Rat) / 100)))
    ∧ (0 ≤ (⟨18446744073709551615, 18446744073709551615, 1, 100,
              18446744073709551615, 0, 0⟩ : TaskStats).cpuLoad ∧
        (⟨18446744073709551615, 18446744073709551615, 1, 100,
          18446744073709551615, 0, 0⟩ : TaskStats).cpuLoad ≤ 100) :=
  ⟨claim4_cpuload.1 1 [] (by decide),
   claim4_cpuload.2 [⟨"A", 0, 18446744073709551615, []⟩]
     ⟨"A", 0, 18446744073709551615, []⟩
     ⟨18446744073709551615, 18446744073709551615, 1, 100,
      18446744073709551615, 0, 0⟩ (by decide)⟩

-- C7.

theorem foldl_min_start_choice :
    ∀ (l : List TaskData) (init : Nat),
      l.foldl (fun m t => if t.startTime < m then t.startTime else m) init = init ∨
        ∃ t ∈ l,
          l.foldl (fun m t => if t.startTime < m then t.startTime else m) init
            = t.startTime := by
  intro l
  induction l with
  | nil => intro init; left; rfl
  | cons u l ih =>
    intro init
    simp only [List.foldl_cons]
    rcases ih (if u.startTime < init then u.startTime else init) with h | ⟨t, ht, h⟩
    · rw [h]
      split
      · right
        exact ⟨u, List.mem_cons_self u l, rfl⟩
      · left
        rfl
    · right
      exact ⟨t, List.mem_cons_of_mem u ht, h⟩

theorem foldl_max_end_choice :
    ∀ (l : List TaskData) (init : Nat),
      l.foldl (fun m t => if m < t.endTime then t.endTime else m) init = init ∨
        ∃ t ∈ l,
          l.foldl (fun m t => if m < t.endTime then t.endTime else m) init
            = t.endTime := by
  intro l
  induction l with
  | nil => intro init; left; rfl
  | cons u l ih =>
    intro init
    simp only [List.foldl_cons]
    rcases ih (if init < u.endTime then u.endTime else init) with h | ⟨t, ht, h⟩
    · rw [h]
      split
      · right
        exact ⟨u, List.mem_cons_self u l, rfl⟩
      · left
        rfl
    · right
      exact ⟨t, List.mem_cons_of_mem u ht, h⟩

/-- C7: when the timeline span is degenerate (every endTime is at most
every startTime, so max endTime minus min startTime is not positive),
every instance receives the all-zero statistics record and nothing
else is computed. -/
theorem claim7_degenerate_span (tasks : List TaskData) (hne : tasks ≠ [])
    (hdeg : ∀ t ∈ tasks, ∀ u ∈ tasks, t.endTime ≤ u.startTime) :
    calculateTaskStats tasks = tasks.map (fun t => (t, defaultStats)) ∧
      defaultStats = ⟨0, 0, 0, 0, 0, 0, 0⟩ := by
  match tasks with
  | [] => exact absurd rfl hne
  | t0 :: rest =>
    refine ⟨?_, rfl⟩
    have hstart :
        ∃ b ∈ t0 :: rest,
          (t0 :: rest).foldl (fun m t => if t.startTime < m then t.startTime else m)
            t0.startTime = b.startTime := by
      rcases foldl_min_start_choice (t0 :: rest) t0.startTime with h | h
      · exact ⟨t0, List.mem_cons_self t0 rest, h⟩
      · exact h
    have hend :
        ∃ a ∈ t0 :: rest,
          (t0 :: rest).foldl (fun m t => if m < t.endTime then t.endTime else m)
            t0.endTime = a.endTime := by
      rcases foldl_max_end_choice (t0 :: rest) t0.endTime with h | h
      · exact ⟨t0, List.mem_cons_self t0 rest, h⟩
      · exact h
    obtain ⟨b, hb, hbs⟩ := hstart
    obtain ⟨a, ha, has⟩ := hend
    have hle :
        (t0 :: rest).foldl (fun m t => if m < t.endTime then t.endTime else m)
            t0.endTime
          ≤ (t0 :: rest).foldl (fun m t => if t.startTime < m then t.startTime else m)
              t0.startTime := by
      rw [hbs, has]
      exact hdeg a ha b hb
    simp only [calculateTaskStats]
    rw [if_pos (by omega)]

/-- Witness for C7 at a one-instance degenerate trace. -/
theorem claim7_witness :
    calculateTaskStats [⟨"A", 5, 5, []⟩]
        = List.map (fun t => (t, defaultStats)) [⟨"A", 5, 5, []⟩] ∧
      defaultStats = ⟨0, 0, 0, 0, 0, 0, 0⟩ :=
  claim7_degenerate_span [⟨"A", 5, 5, []⟩] (by decide) (by decide)

-- Association-list map lemmas.

theorem mapGet_mapDelete_ne {α : Type} (k k' : Nat) (h : k' ≠ k) :
    ∀ m : List (Nat × α), mapGet k' (mapDelete k m) = mapGet k' m := by
  intro m
  induction m with
  | nil => rfl
  | cons e m ih =>
    by_cases he : e.1 = k
    · have hf : (e.1 != k) = false := by simp [he]
      have hne : ¬e.1 = k' := fun hh => h (by rw [← hh, he])
      simp only [mapDelete, List.filter_cons, hf, if_false, Bool.false_eq_true]
      rw [mapGet, if_neg hne]
      exact ih
    · have hf : (e.1 != k) = true := by simp [he]
      simp only [mapDelete, List.filter_cons, hf, if_true]
      rw [mapGet, mapGet]
      split
      · rfl
      · exact ih

theorem mapGet_mapSet_self {α : Type} (k : Nat) (v : α) (m : List (Nat × α)) :
    mapGet k (mapSet k v m) = some v := by
  simp [mapSet, mapGet]

theorem mapGet_mapSet_ne {α : Type} (k k' : Nat) (v : α) (h : k' ≠ k)
    (m : List (Nat × α)) : mapGet k' (mapSet k v m) = mapGet k' m := by
  rw [mapSet, mapGet, if_neg (fun hh => h hh.symm)]
  exact mapGet_mapDelete_ne k k' h m

theorem mapGet_mapDelete_self {α : Type} (k : Nat) : ∀ m : List (Nat × α),
    mapGet k (mapDelete k m) = none := by
  intro m
  induction m with
  | nil => rfl
  | cons e m ih =>
    by_cases he : e.1 = k
    · have hf : (e.1 != k) = false := by simp [he]
      simp only [mapDelete, List.filter_cons, hf, if_false, Bool.false_eq_true]
      exact ih
    · have hf : (e.1 != k) = true := by simp [he]
      simp only [mapDelete, List.filter_cons, hf, if_true]
      rw [mapGet, if_neg he]
      exact ih

-- The reachability invariant behind the unmatched-end case: whenever a
-- task id is active, that id has an open interval in taskStartMap.

/-- The active task always has an open interval. -/
def ActiveOpen (s : ParserState) : Prop :=
  ∀ a, s.activeTaskId = some a → ∃ v, mapGet a s.taskStartMap = some v

theorem activeOpen_init : ActiveOpen initState := by
  intro a ha
  simp [initState] at ha

theorem maybeGap_taskStartMap (s : ParserState) (tb t : Nat) :
    (maybeGap s tb t).taskStartMap = s.taskStartMap := by
  unfold maybeGap
  split
  · split_ifs <;> rfl
  · rfl

theorem maybeGap_isrStartMap (s : ParserState) (tb t : Nat) :
    (maybeGap s tb t).isrStartMap = s.isrStartMap := by
  unfold maybeGap
  split
  · split_ifs <;> rfl
  · rfl

theorem maybeGap_activeTaskId (s : ParserState) (tb t : Nat) :
    (maybeGap s tb t).activeTaskId = s.activeTaskId := by
  unfold maybeGap
  split
  · split_ifs <;> rfl
  · rfl

theorem maybeGap_taskNameMap (s : ParserState) (tb t : Nat) :
    (maybeGap s tb t).taskNameMap = s.taskNameMap := by
  unfold maybeGap
  split
  · split_ifs <;> rfl
  · rfl

theorem maybeGap_isrNameMap (s : ParserState) (tb t : Nat) :
    (maybeGap s tb t).isrNameMap = s.isrNameMap := by
  unfold maybeGap
  split
  · split_ifs <;> rfl
  · rfl

theorem activeOpen_maybeGap (s : ParserState) (tb t : Nat) (h : ActiveOpen s) :
    ActiveOpen (maybeGap s tb t) := by
  intro a ha
  rw [maybeGap_taskStartMap]
  rw [maybeGap_activeTaskId] at ha
  exact h a ha

theorem activeOpen_taskStartEvent (s : ParserState) (id t : Nat) :
    ActiveOpen (taskStartEvent s id t) := by
  intro a ha
  simp only [taskStartEvent] at ha ⊢
  obtain rfl : id = a := Option.some.inj ha
  exact ⟨(t, []), mapGet_mapSet_self _ _ _⟩

theorem activeOpen_taskEndEvent (s : ParserState) (id t : Nat) (h : ActiveOpen s) :
    ActiveOpen (taskEndEvent s id t) := by
  intro a ha
  unfold taskEndEvent at ha ⊢
  cases hm : mapGet id s.taskStartMap with
  | some si =>
    rw [hm] at ha
    dsimp only at ha ⊢
    by_cases hact : s.activeTaskId = some id
    · rw [if_pos hact] at ha
      simp at ha
    · rw [if_neg hact] at ha ⊢
      dsimp only at ha ⊢
      have hne : a ≠ id := fun hh => hact (hh ▸ ha)
      rw [mapGet_mapDelete_ne id a hne]
      exact h a ha
  | none =>
    rw [hm] at ha
    dsimp only at ha ⊢
    by_cases hact : s.activeTaskId = some id
    · rw [if_pos hact] at ha
      simp at ha
    · rw [if_neg hact] at ha ⊢
      exact h a ha

theorem activeOpen_taskCreateEvent (s : ParserState) (t : Nat) (h : ActiveOpen s) :
    ActiveOpen (taskCreateEvent s t) := by
  intro a ha
  simp only [taskCreateEvent] at ha ⊢
  exact h a ha

theorem activeOpen_isrEnterEvent (s : ParserState) (id t : Nat) (h : ActiveOpen s) :
    ActiveOpen (isrEnterEvent s id t) := by
  intro a ha
  unfold isrEnterEvent at ha ⊢
  cases hact : s.activeTaskId with
  | some b =>
    rw [hact] at ha
    dsimp only at ha ⊢
    cases hm : mapGet b s.taskStartMap with
    | some si =>
      rw [hm] at ha
      dsimp only at ha ⊢
      obtain rfl : b = a := Option.some.inj (hact ▸ ha)
      exact ⟨_, mapGet_mapSet_self _ _ _⟩
    | none =>
      rw [hm] at ha
      dsimp only at ha ⊢
      exact h a (hact.trans ha)
  | none =>
    rw [hact] at ha
    dsimp only at ha ⊢
    simp at ha

theorem activeOpen_isrExitEvent (s : ParserState) (id t : Nat) (h : ActiveOpen s) :
    ActiveOpen (isrExitEvent s id t) := by
  intro a ha
  unfold isrExitEvent at ha ⊢
  cases hm : mapGet id s.isrStartMap with
  | some st =>
    rw [hm] at ha
    dsimp only at ha ⊢
    by_cases hz : st = 0
    · rw [if_pos hz] at ha ⊢
      exact h a ha
    · rw [if_neg hz] at ha ⊢
      cases hact : s.activeTaskId with
      | some b =>
        rw [hact] at ha
        dsimp only at ha ⊢
        cases hmb : mapGet b s.taskStartMap with
        | some si =>
          rw [hmb] at ha
          dsimp only at ha ⊢
          obtain rfl : b = a := Option.some.inj (hact ▸ ha)
          exact ⟨_, mapGet_mapSet_self _ _ _⟩
        | none =>
          rw [hmb] at ha
          dsimp only at ha ⊢
          exact h a (hact.trans ha)
      | none =>
        rw [hact] at ha
        dsimp only at ha ⊢
        simp at ha
  | none =>
    rw [hm] at ha
    dsimp only at ha ⊢
    exact h a ha

theorem processSetup_fields (s : ParserState) (code id : Nat)
    (nameBytes : List Nat) :
    (processSetup s code id nameBytes).tasks = s.tasks ∧
      (processSetup s code id nameBytes).taskStartMap = s.taskStartMap ∧
      (processSetup s code id nameBytes).isrStartMap = s.isrStartMap ∧
      (processSetup s code id nameBytes).activeTaskId = s.activeTaskId ∧
      (processSetup s code id nameBytes).lastEndTime = s.lastEndTime := by
  unfold processSetup
  by_cases h1 : code = 0x70
  · rw [if_pos h1]
    exact ⟨rfl, rfl, rfl, rfl, rfl⟩
  · rw [if_neg h1]
    by_cases h2 : code = 0x71
    · rw [if_pos h2]
      exact ⟨rfl, rfl, rfl, rfl, rfl⟩
    · rw [if_neg h2]
      by_cases h3 : code = 0x7F
      · rw [if_pos h3]
        by_cases h4 : strBeginsWith (decodeName nameBytes) "CLK:"
        · rw [if_pos h4]
          exact ⟨rfl, rfl, rfl, rfl, rfl⟩
        · rw [if_neg h4]
          exact ⟨rfl, rfl, rfl, rfl, rfl⟩
      · rw [if_neg h3]
        exact ⟨rfl, rfl, rfl, rfl, rfl⟩

theorem activeOpen_processSetup (s : ParserState) (code id : Nat)
    (nameBytes : List Nat) (h : ActiveOpen s) :
    ActiveOpen (processSetup s code id nameBytes) := by
  intro a ha
  rw [(processSetup_fields s code id nameBytes).2.1]
  rw [(processSetup_fields s code id nameBytes).2.2.2.1] at ha
  exact h a ha

theorem activeOpen_processRecord (s : ParserState) (r : Record) (h : ActiveOpen s) :
    ActiveOpen (processRecord s r) := by
  cases r with
  | setup code id nameBytes => exact activeOpen_processSetup s code id nameBytes h
  | event tb id t =>
    show ActiveOpen (processEvent s tb id t)
    unfold processEvent
    have hg := activeOpen_maybeGap s tb t h
    split_ifs
    · exact activeOpen_taskStartEvent _ id t
    · exact activeOpen_taskEndEvent _ id t hg
    · exact activeOpen_taskCreateEvent _ t hg
    · exact activeOpen_isrEnterEvent _ id t hg
    · exact activeOpen_isrExitEvent _ id t hg
    · exact hg

theorem activeOpen_runRecords (rs : List Record) :
    ActiveOpen (runRecords initState rs) := by
  suffices h : ∀ s, ActiveOpen s → ActiveOpen (runRecords s rs) from
    h initState activeOpen_init
  induction rs with
  | nil => intro s hs; exact hs
  | cons r rs ih =>
    intro s hs
    exact ih (processRecord s r) (activeOpen_processRecord s r hs)

-- C2.

/-- C2: a task-end event whose id has no open interval is dropped with
no effect at all: the full decoder state after the event equals the
state before it, for every state reachable from the initial state.
The type byte is any byte of event kind 1 with a clear start flag. -/
theorem claim2_unmatched_end (rs : List Record) (tb id t : Nat)
    (h1 : tb &&& 127 = 1) (h2 : tb &&& 128 = 0)
    (h3 : mapGet id (runRecords initState rs).taskStartMap = none) :
    processRecord (runRecords initState rs) (Record.event tb id t)
      = runRecords initState rs := by
  have hinv := activeOpen_runRecords rs
  set s := runRecords initState rs with hsdef
  have hgap : maybeGap s tb t = s := by
    unfold maybeGap
    cases hle : s.lastEndTime with
    | none => rfl
    | some le =>
      dsimp only
      rw [if_neg]
      rintro ⟨hor, -⟩
      rcases hor with hh | hh
      · exact hh h2
      · rw [h1] at hh
        exact absurd hh (by decide)
  show processEvent s tb id t = s
  simp only [processEvent]
  rw [hgap, if_pos h1, if_neg (fun hh => hh h2)]
  unfold taskEndEvent
  rw [h3]
  dsimp only
  have hne : ¬s.activeTaskId = some id := by
    intro hact
    obtain ⟨v, hv⟩ := hinv id hact
    rw [h3] at hv
    exact Option.noConfusion hv
  rw [if_neg hne]

/-- Witness for C2: in the initial state (reachable by the empty record
list) a task-end event for id 0 is a no-op. -/
theorem claim2_witness :
    processRecord (runRecords initState []) (Record.event 1 0 5)
      = runRecords initState [] :=
  claim2_unmatched_end [] 1 0 5 (by decide) (by decide) (by decide)

-- C9.

theorem maybeGap_cases (s : ParserState) (tb t : Nat) :
    maybeGap s tb t = s ∨
      ∃ le, s.lastEndTime = some le ∧ le < t ∧
        maybeGap s tb t = { s with tasks := s.tasks ++ [⟨"_RTOS_", le, t, []⟩] } := by
  unfold maybeGap
  cases hle : s.lastEndTime with
  | none => exact Or.inl rfl
  | some le =>
    dsimp only
    by_cases hc : (tb &&& 128 ≠ 0 ∨ tb &&& 127 = 3) ∧ le < t
    · rw [if_pos hc]
      have hg : 0 < t - le := by omega
      rw [if_pos hg]
      exact Or.inr ⟨le, rfl, hc.2, rfl⟩
    · rw [if_neg hc]
      exact Or.inl rfl

theorem isrEnterEvent_isrStartMap (s : ParserState) (id t : Nat) :
    (isrEnterEvent s id t).isrStartMap = mapSet id t s.isrStartMap := by
  unfold isrEnterEvent
  cases hact : s.activeTaskId with
  | some a =>
    dsimp only
    cases hm : mapGet a s.taskStartMap with
    | some si => rfl
    | none => rfl
  | none => rfl

/-- C9: a task-start event for an id that is already open silently
replaces the open interval: the id is now open at the new timestamp
with an empty preemption list, the id becomes the active task, and the
only instance possibly emitted while processing the event is a _RTOS_
gap (never an instance for the discarded start).  Likewise an
interrupt-enter for an already-open interrupt id overwrites the stored
enter timestamp. -/
theorem claim9_reopen :
    (∀ (s : ParserState) (tb id t st : Nat) (ps : List Preemption),
        tb &&& 127 = 1 → tb &&& 128 ≠ 0 →
        mapGet id s.taskStartMap = some (st, ps) →
        mapGet id (processRecord s (Record.event tb id t)).taskStartMap
            = some (t, []) ∧
          (processRecord s (Record.event tb id t)).activeTaskId = some id ∧
          ((processRecord s (Record.event tb id t)).tasks = s.tasks ∨
            ∃ le, s.lastEndTime = some le ∧ le < t ∧
              (processRecord s (Record.event tb id t)).tasks
                = s.tasks ++ [⟨"_RTOS_", le, t, []⟩]))
      ∧ ∀ (s : ParserState) (tb id t st : Nat),
          tb &&& 127 = 2 → tb &&& 128 ≠ 0 →
          mapGet id s.isrStartMap = some st →
          mapGet id (processRecord s (Record.event tb id t)).isrStartMap
            = some t := by
  constructor
  · intro s tb id t st ps h1 h2 _
    simp only [processRecord, processEvent]
    rw [if_pos h1, if_pos h2]
    refine ⟨mapGet_mapSet_self _ _ _, rfl, ?_⟩
    rcases maybeGap_cases s tb t with hg | ⟨le, hle, hlt, hg⟩
    · have h := congrArg ParserState.tasks hg
      exact Or.inl h
    · have h := congrArg ParserState.tasks hg
      exact Or.inr ⟨le, hle, hlt, h⟩
  · intro s tb id t st h1 h2 _
    simp only [processRecord, processEvent]
    have hne1 : ¬tb &&& 127 = 1 := by
      intro hh
      rw [h1] at hh
      exact absurd hh (by decide)
    have hne3 : ¬tb &&& 127 = 3 := by
      intro hh
      rw [h1] at hh
      exact absurd hh (by decide)
    rw [if_neg hne1, if_neg hne3, if_pos h1, if_pos h2,
      isrEnterEvent_isrStartMap, maybeGap_isrStartMap]
    exact mapGet_mapSet_self _ _ _

/-- Witness for C9 at a state with task id 1 open at 5 and interrupt
id 2 open at 7. -/
theorem claim9_witness :
    mapGet 1 (processRecord ⟨[], [], [], none, none, [(1, (5, []))], [(2, 7)], none⟩
        (Record.event 0x81 1 9)).taskStartMap = some (9, []) ∧
      (processRecord ⟨[], [], [], none, none, [(1, (5, []))], [(2, 7)], none⟩
        (Record.event 0x81 1 9)).activeTaskId = some 1 ∧
      mapGet 2 (processRecord ⟨[], [], [], none, none, [(1, (5, []))], [(2, 7)], none⟩
        (Record.event 0x82 2 11)).isrStartMap = some 11 :=
  ⟨(claim9_reopen.1 ⟨[], [], [], none, none, [(1, (5, []))], [(2, 7)], none⟩
      0x81 1 9 5 [] (by decide) (by decide) (by decide)).1,
   (claim9_reopen.1 ⟨[], [], [], none, none, [(1, (5, []))], [(2, 7)], none⟩
      0x81 1 9 5 [] (by decide) (by decide) (by decide)).2.1,
   claim9_reopen.2 ⟨[], [], [], none, none, [(1, (5, []))], [(2, 7)], none⟩
      0x82 2 11 7 (by decide) (by decide) (by decide)⟩

-- Shared lemmas about the event branches.

theorem maybeGap_eq_self (s : ParserState) (tb t : Nat)
    (h : ∀ le, s.lastEndTime = some le →
      ¬((tb &&& 128 ≠ 0 ∨ tb &&& 127 = 3) ∧ le < t)) :
    maybeGap s tb t = s := by
  unfold maybeGap
  cases hle : s.lastEndTime with
  | none => rfl
  | some le =>
    dsimp only
    rw [if_neg (h le hle)]

theorem maybeGap_eq_of_end (s : ParserState) (tb t : Nat)
    (h2 : tb &&& 128 = 0) (h3 : tb &&& 127 ≠ 3) :
    maybeGap s tb t = s := by
  apply maybeGap_eq_self
  rintro le - ⟨hor, -⟩
  rcases hor with hh | hh
  · exact hh h2
  · exact h3 hh

theorem isrEnterEvent_tasks (s : ParserState) (id t : Nat) :
    (isrEnterEvent s id t).tasks = s.tasks := by
  unfold isrEnterEvent
  cases hact : s.activeTaskId with
  | some a =>
    dsimp only
    cases hm : mapGet a s.taskStartMap with
    | some si => rfl
    | none => rfl
  | none => rfl

theorem resolveIsrName_maybeGap (s : ParserState) (tb t id : Nat) :
    resolveIsrName (maybeGap s tb t) id = resolveIsrName s id := by
  unfold resolveIsrName
  rw [maybeGap_isrNameMap]

-- C6.

theorem claim6_taskEnd_emit (s : ParserState) (tb id t st : Nat)
    (ps : List Preemption)
    (h1 : tb &&& 127 = 1) (h2 : tb &&& 128 = 0)
    (h3 : mapGet id s.taskStartMap = some (st, ps)) :
    (processRecord s (Record.event tb id t)).tasks
      = s.tasks ++ [⟨resolveTaskName s id, st, t, ps⟩] := by
  simp only [processRecord, processEvent]
  rw [maybeGap_eq_of_end s tb t h2 (by rw [h1]; decide),
    if_pos h1, if_neg (fun hh => hh h2)]
  unfold taskEndEvent
  rw [h3]
  dsimp only
  by_cases hact : s.activeTaskId = some id
  · rw [if_pos hact]
  · rw [if_neg hact]

/-- C6, amended: name resolution falls back to the synthesized
id-based label not only when the id is unmapped but also when the
mapped name is the empty string (the JavaScript || fallback on a falsy
string); a non-empty mapped name is used as is by the instances
emitted on task-end and interrupt-exit and by the preemption entries
appended on interrupt-enter, while task-create instances always carry
the fixed label RTOS:Create. -/
theorem claim6_amended :
    (∀ (s : ParserState) (id : Nat) (n : String),
        mapGet id s.taskNameMap = some n → n ≠ "" → resolveTaskName s id = n)
    ∧ (∀ (s : ParserState) (id : Nat),
        mapGet id s.taskNameMap = none ∨ mapGet id s.taskNameMap = some "" →
        resolveTaskName s id = "TaskID_" ++ toString id)
    ∧ (∀ (s : ParserState) (id : Nat) (n : String),
        mapGet id s.isrNameMap = some n → n ≠ "" → resolveIsrName s id = n)
    ∧ (∀ (s : ParserState) (id : Nat),
        mapGet id s.isrNameMap = none ∨ mapGet id s.isrNameMap = some "" →
        resolveIsrName s id = "ISRID_" ++ toString id)
    ∧ (∀ (s : ParserState) (tb id t st : Nat) (ps : List Preemption),
        tb &&& 127 = 1 → tb &&& 128 = 0 →
        mapGet id s.taskStartMap = some (st, ps) →
        (processRecord s (Record.event tb id t)).tasks
          = s.tasks ++ [⟨resolveTaskName s id, st, t, ps⟩])
    ∧ (∀ (s : ParserState) (tb id t st : Nat),
        tb &&& 127 = 2 → tb &&& 128 = 0 →
        mapGet id s.isrStartMap = some st → st ≠ 0 →
        (processRecord s (Record.event tb id t)).tasks
          = s.tasks ++ [⟨"ISR:" ++ resolveIsrName s id, st, t, []⟩])
    ∧ (∀ (s : ParserState) (tb id t a stA : Nat) (ps : List Preemption),
        tb &&& 127 = 2 → tb &&& 128 ≠ 0 →
        s.activeTaskId = some a →
        mapGet a s.taskStartMap = some (stA, ps) →
        mapGet a (processRecord s (Record.event tb id t)).taskStartMap
          = some (stA, ps ++ [⟨t, 0, resolveIsrName s id⟩]))
    ∧ ∀ (s : ParserState) (tb id t : Nat),
        tb &&& 127 = 3 → s.lastEndTime = none →
        (processRecord s (Record.event tb id t)).tasks
          = s.tasks ++ [⟨"RTOS:Create", t, t, []⟩] := by
  refine ⟨?_, ?_, ?_, ?_, claim6_taskEnd_emit, ?_, ?_, ?_⟩
  · intro s id n hm hne
    unfold resolveTaskName
    rw [hm]
    dsimp only
    rw [if_neg hne]
  · intro s id hor
    unfold resolveTaskName
    rcases hor with hm | hm
    · rw [hm]
    · rw [hm]
      dsimp only
      rw [if_pos rfl]
  · intro s id n hm hne
    unfold resolveIsrName
    rw [hm]
    dsimp only
    rw [if_neg hne]
  · intro s id hor
    unfold resolveIsrName
    rcases hor with hm | hm
    · rw [hm]
    · rw [hm]
      dsimp only
      rw [if_pos rfl]
  · intro s tb id t st h1 h2 h3 h4
    simp only [processRecord, processEvent]
    rw [maybeGap_eq_of_end s tb t h2 (by rw [h1]; decide),
      if_neg (by rw [h1]; decide), if_neg (by rw [h1]; decide), if_pos h1,
      if_neg (fun hh => hh h2)]
    unfold isrExitEvent
    rw [h3]
    dsimp only
    rw [if_neg h4]
    cases hact : s.activeTaskId with
    | some a =>
      dsimp only
      cases hmb : mapGet a s.taskStartMap with
      | some si => rfl
      | none => rfl
    | none => rfl
  · intro s tb id t a stA ps h1 h2 hact hm
    simp only [processRecord, processEvent]
    rw [if_neg (by rw [h1]; decide), if_neg (by rw [h1]; decide), if_pos h1,
      if_pos h2]
    unfold isrEnterEvent
    rw [maybeGap_activeTaskId, hact]
    dsimp only
    rw [maybeGap_taskStartMap, hm]
    dsimp only
    rw [resolveIsrName_maybeGap]
    exact mapGet_mapSet_self _ _ _
  · intro s tb id t h1 hle
    simp only [processRecord, processEvent]
    have hg : maybeGap s tb t = s := by
      unfold maybeGap
      rw [hle]
    rw [hg, if_neg (by rw [h1]; decide), if_pos h1]
    rfl

/-- Counterexample for C6 as stated: a setup record maps task id 1 to
the empty name, yet the task instance decoded from that stream is
labelled TaskID_1, not the mapped (empty) name. -/
theorem claim6_counterexample :
    parseBinaryLogFile
        [0x70, 1, 0, 0x81, 1, 10, 0, 0, 0, 0, 0, 0, 0,
         0x01, 1, 20, 0, 0, 0, 0, 0, 0, 0]
        = [⟨"TaskID_1", 10, 20, []⟩]
      ∧ mapGet 1 (parseLoop initState
          [0x70, 1, 0, 0x81, 1, 10, 0, 0, 0, 0, 0, 0, 0,
           0x01, 1, 20, 0, 0, 0, 0, 0, 0, 0]).taskNameMap = some ""
      ∧ "TaskID_1" ≠ "" := by
  decide

/-- Witness for the amended C6: a state mapping id 1 to a non-empty
name and id 2 to the empty name. -/
theorem claim6_witness :
    resolveTaskName ⟨[], [(1, "Work"), (2, "")], [], none, none, [], [], none⟩ 1
        = "Work"
      ∧ resolveTaskName ⟨[], [(1, "Work"), (2, "")], [], none, none, [], [], none⟩ 2
        = "TaskID_" ++ toString 2
      ∧ (processRecord
            ⟨[], [(1, "Work"), (2, "")], [], none, none, [(1, (5, []))], [], none⟩
            (Record.event 1 1 9)).tasks
        = [] ++ [⟨resolveTaskName
            ⟨[], [(1, "Work"), (2, "")], [], none, none, [(1, (5, []))], [], none⟩ 1,
            5, 9, []⟩] :=
  ⟨claim6_amended.1 ⟨[], [(1, "Work"), (2, "")], [], none, none, [], [], none⟩ 1
      "Work" (by decide) (by decide),
   claim6_amended.2.1 ⟨[], [(1, "Work"), (2, "")], [], none, none, [], [], none⟩ 2
      (Or.inr (by decide)),
   claim6_amended.2.2.2.2.1
      ⟨[], [(1, "Work"), (2, "")], [], none, none, [(1, (5, []))], [], none⟩
      1 1 9 5 [] (by decide) (by decide) (by decide)⟩

-- C8.

/-- Counterexample for C8 as stated: an Info record CLK:abc leaves the
frequency variable set to the NaN marker (some none), not unset (none)
as it was before the record. -/
theorem claim8_counterexample :
    (parseLoop initState [0x7F, 0, 7, 67, 76, 75, 58, 97, 98, 99]).cpuFrequency
        = some none
      ∧ tokenize [0x7F, 0, 7, 67, 76, 75, 58, 97, 98, 99]
          = [Record.setup 0x7F 0 [67, 76, 75, 58, 97, 98, 99]]
      ∧ decodeName [67, 76, 75, 58, 97, 98, 99] = "CLK:abc"
      ∧ initState.cpuFrequency = none := by
  decide

/-- C8, amended: when an Info payload begins with CLK: and the rest
does not parse as a decimal number, decode continues with every other
state component unchanged, but the clock frequency is assigned the NaN
result of parseInt (the some none marker) instead of staying unset. -/
theorem claim8_amended (s : ParserState) (id : Nat) (nameBytes : List Nat)
    (h1 : strBeginsWith (decodeName nameBytes) "CLK:" = true)
    (h2 : parseIntDec (strDrop (decodeName nameBytes) 4) = none) :
    processSetup s 0x7F id nameBytes = { s with cpuFrequency := some none } := by
  unfold processSetup
  rw [if_neg (by decide), if_neg (by decide), if_pos rfl, if_pos h1, h2]

/-- Witness for the amended C8 on the CLK:abc payload. -/
theorem claim8_witness :
    processSetup initState 0x7F 0 [67, 76, 75, 58, 97, 98, 99]
      = { initState with cpuFrequency := some none } :=
  claim8_amended initState 0 [67, 76, 75, 58, 97, 98, 99] (by decide) (by decide)

-- C1.

theorem taskid_label_ne (i : Nat) : "TaskID_" ++ toString i ≠ "_RTOS_" := by
  intro h
  have hlen := congrArg String.length h
  rw [String.length_append] at hlen
  have h7 : "TaskID_".length = 7 := rfl
  have h6 : "_RTOS_".length = 6 := rfl
  omega

theorem isr_label_ne (n : String) : "ISR:" ++ n ≠ "_RTOS_" := by
  intro h
  have hd := congrArg String.data h
  rw [String.data_append] at hd
  have h1 : "ISR:".data = ['I', 'S', 'R', ':'] := rfl
  have h2 : "_RTOS_".data = ['_', 'R', 'T', 'O', 'S', '_'] := rfl
  rw [h1, h2] at hd
  simp only [List.cons_append] at hd
  injection hd with hc _
  exact absurd hc (by decide)

theorem resolveTaskName_ne_rtos (s : ParserState) (id : Nat)
    (hname : ∀ k n, mapGet k s.taskNameMap = some n → n ≠ "_RTOS_") :
    resolveTaskName s id ≠ "_RTOS_" := by
  unfold resolveTaskName
  cases hm : mapGet id s.taskNameMap with
  | some n =>
    dsimp only
    by_cases he : n = ""
    · rw [if_pos he]
      exact taskid_label_ne id
    · rw [if_neg he]
      exact hname id n hm
  | none => exact taskid_label_ne id

theorem taskEndEvent_tasks (s : ParserState) (id t : Nat) :
    (taskEndEvent s id t).tasks = s.tasks ∨
      ∃ st ps, mapGet id s.taskStartMap = some (st, ps) ∧
        (taskEndEvent s id t).tasks
          = s.tasks ++ [⟨resolveTaskName s id, st, t, ps⟩] := by
  unfold taskEndEvent
  cases hm : mapGet id s.taskStartMap with
  | some si =>
    obtain ⟨st, ps⟩ := si
    dsimp only
    right
    refine ⟨st, ps, rfl, ?_⟩
    by_cases hact : s.activeTaskId = some id
    · rw [if_pos hact]
    · rw [if_neg hact]
  | none =>
    dsimp only
    left
    by_cases hact : s.activeTaskId = some id
    · rw [if_pos hact]
    · rw [if_neg hact]

theorem isrExitEvent_tasks (s : ParserState) (id t : Nat) :
    (isrExitEvent s id t).tasks = s.tasks ∨
      ∃ st, (isrExitEvent s id t).tasks
        = s.tasks ++ [⟨"ISR:" ++ resolveIsrName s id, st, t, []⟩] := by
  unfold isrExitEvent
  cases hm : mapGet id s.isrStartMap with
  | some st =>
    dsimp only
    by_cases hz : st = 0
    · rw [if_pos hz]
      exact Or.inl rfl
    · rw [if_neg hz]
      right
      refine ⟨st, ?_⟩
      cases hact : s.activeTaskId with
      | some a =>
        dsimp only
        cases hmb : mapGet a s.taskStartMap with
        | some si => rfl
        | none => rfl
      | none => rfl
  | none => exact Or.inl rfl

theorem processEvent_no_gap (s : ParserState) (tb id t : Nat)
    (hg : maybeGap s tb t = s)
    (hname : ∀ k n, mapGet k s.taskNameMap = some n → n ≠ "_RTOS_") :
    ∀ x ∈ (processEvent s tb id t).tasks.drop s.tasks.length,
      x.name ≠ "_RTOS_" := by
  intro x hx
  simp only [processEvent, hg] at hx
  by_cases h1 : tb &&& 127 = 1
  · rw [if_pos h1] at hx
    by_cases hstart : tb &&& 128 ≠ 0
    · rw [if_pos hstart] at hx
      rw [show (taskStartEvent s id t).tasks = s.tasks from rfl,
        List.drop_length] at hx
      exact absurd hx (List.not_mem_nil x)
    · rw [if_neg hstart] at hx
      rcases taskEndEvent_tasks s id t with he | ⟨st, ps, _, he⟩
      · rw [he, List.drop_length] at hx
        exact absurd hx (List.not_mem_nil x)
      · rw [he, List.drop_left] at hx
        have hxx : x = ⟨resolveTaskName s id, st, t, ps⟩ := by simpa using hx
        rw [hxx]
        exact resolveTaskName_ne_rtos s id hname
  · rw [if_neg h1] at hx
    by_cases h3 : tb &&& 127 = 3
    · rw [if_pos h3] at hx
      rw [show (taskCreateEvent s t).tasks
          = s.tasks ++ [⟨"RTOS:Create", t, t, []⟩] from rfl,
        List.drop_left] at hx
      have hxx : x = ⟨"RTOS:Create", t, t, []⟩ := by simpa using hx
      rw [hxx]
      exact (by decide : "RTOS:Create" ≠ "_RTOS_")
    · rw [if_neg h3] at hx
      by_cases h2 : tb &&& 127 = 2
      · rw [if_pos h2] at hx
        by_cases hstart : tb &&& 128 ≠ 0
        · rw [if_pos hstart] at hx
          rw [isrEnterEvent_tasks, List.drop_length] at hx
          exact absurd hx (List.not_mem_nil x)
        · rw [if_neg hstart] at hx
          rcases isrExitEvent_tasks s id t with he | ⟨st, he⟩
          · rw [he, List.drop_length] at hx
            exact absurd hx (List.not_mem_nil x)
          · rw [he, List.drop_left] at hx
            have hxx : x = ⟨"ISR:" ++ resolveIsrName s id, st, t, []⟩ := by
              simpa using hx
            rw [hxx]
            exact isr_label_ne _
      · rw [if_neg h2] at hx
        rw [List.drop_length] at hx
        exact absurd hx (List.not_mem_nil x)

theorem processEvent_tasks_extend (s : ParserState) (tb id t : Nat) :
    ∃ l, (processEvent s tb id t).tasks = (maybeGap s tb t).tasks ++ l := by
  simp only [processEvent]
  by_cases h1 : tb &&& 127 = 1
  · rw [if_pos h1]
    by_cases hstart : tb &&& 128 ≠ 0
    · rw [if_pos hstart]
      exact ⟨[], by simp [taskStartEvent]⟩
    · rw [if_neg hstart]
      rcases taskEndEvent_tasks (maybeGap s tb t) id t with he | ⟨st, ps, _, he⟩
      · exact ⟨[], by rw [he]; simp⟩
      · exact ⟨_, he⟩
  · rw [if_neg h1]
    by_cases h3 : tb &&& 127 = 3
    · rw [if_pos h3]
      exact ⟨_, rfl⟩
    · rw [if_neg h3]
      by_cases h2 : tb &&& 127 = 2
      · rw [if_pos h2]
        by_cases hstart : tb &&& 128 ≠ 0
        · rw [if_pos hstart]
          exact ⟨[], by rw [isrEnterEvent_tasks]; simp⟩
        · rw [if_neg hstart]
          rcases isrExitEvent_tasks (maybeGap s tb t) id t with he | ⟨st, he⟩
          · exact ⟨[], by rw [he]; simp⟩
          · exact ⟨_, he⟩
      · rw [if_neg h2]
        exact ⟨[], by simp⟩

/-- C1, amended: the gap block of the source fires for every event
record whose start/enter flag (bit 7) is set, interrupt-enter and
unknown start-flagged kinds included, and for task-create events, not
only for task-start events; it requires a set lastEndTime strictly
below the timestamp.  End/exit records of any kind, events with no
gap condition, and setup records never emit a _RTOS_ instance (stated
for states whose task name table does not map an id to the literal
name _RTOS_, which would make a regular task instance indistinguishable
from a gap by name). -/
theorem claim1_amended :
    (∀ (s : ParserState) (tb id t : Nat),
        (∀ k n, mapGet k s.taskNameMap = some n → n ≠ "_RTOS_") →
        tb &&& 128 = 0 → tb &&& 127 ≠ 3 →
        ∀ x ∈ (processRecord s (Record.event tb id t)).tasks.drop s.tasks.length,
          x.name ≠ "_RTOS_")
    ∧ (∀ (s : ParserState) (tb id t : Nat),
        (∀ k n, mapGet k s.taskNameMap = some n → n ≠ "_RTOS_") →
        (s.lastEndTime = none ∨ ∃ le, s.lastEndTime = some le ∧ t ≤ le) →
        ∀ x ∈ (processRecord s (Record.event tb id t)).tasks.drop s.tasks.length,
          x.name ≠ "_RTOS_")
    ∧ (∀ (s : ParserState) (tb id t le : Nat),
        (tb &&& 128 ≠ 0 ∨ tb &&& 127 = 3) → s.lastEndTime = some le → le < t →
        TaskData.mk "_RTOS_" le t [] ∈
          (processRecord s (Record.event tb id t)).tasks.drop s.tasks.length)
    ∧ ∀ (s : ParserState) (code id : Nat) (nameBytes : List Nat),
        (processRecord s (Record.setup code id nameBytes)).tasks.drop
          s.tasks.length = [] := by
  refine ⟨?_, ?_, ?_, ?_⟩
  · intro s tb id t hname h2 h3
    exact processEvent_no_gap s tb id t (maybeGap_eq_of_end s tb t h2 h3) hname
  · intro s tb id t hname hcond
    have hg : maybeGap s tb t = s := by
      apply maybeGap_eq_self
      rintro le hle ⟨-, hlt⟩
      rcases hcond with hnone | ⟨le2, hle2, hge⟩
      · rw [hnone] at hle
        exact Option.noConfusion hle
      · rw [hle2] at hle
        have he := Option.some.inj hle
        omega
    exact processEvent_no_gap s tb id t hg hname
  · intro s tb id t le hor hle hlt
    have hg : maybeGap s tb t
        = { s with tasks := s.tasks ++ [⟨"_RTOS_", le, t, []⟩] } := by
      unfold maybeGap
      rw [hle]
      dsimp only
      rw [if_pos ⟨hor, hlt⟩, if_pos (by omega)]
    obtain ⟨l, hl⟩ := processEvent_tasks_extend s tb id t
    show TaskData.mk "_RTOS_" le t []
      ∈ (processEvent s tb id t).tasks.drop s.tasks.length
    rw [hl, hg]
    dsimp only
    rw [List.append_assoc, List.drop_left]
    simp
  · intro s code id nameBytes
    show (processSetup s code id nameBytes).tasks.drop s.tasks.length = []
    rw [(processSetup_fields s code id nameBytes).1, List.drop_length]

/-- Counterexample for C1 as stated: in the stream start(1)@10,
end(1)@20, interrupt-enter(5)@30 the _RTOS_ gap over [20,30) is
emitted while processing the interrupt-enter record (type byte 0x82,
kind 2 with the start flag), not a task-start or task-create record. -/
theorem claim1_counterexample :
    tokenize [0x81, 1, 10, 0, 0, 0, 0, 0, 0, 0, 0x01, 1, 20, 0, 0, 0, 0, 0, 0, 0,
        0x82, 5, 30, 0, 0, 0, 0, 0, 0, 0]
        = [Record.event 0x81 1 10, Record.event 1 1 20, Record.event 0x82 5 30]
      ∧ (0x82 &&& 127 = 2 ∧ 0x82 &&& 128 ≠ 0)
      ∧ (processRecord
            (runRecords initState [Record.event 0x81 1 10, Record.event 1 1 20])
            (Record.event 0x82 5 30)).tasks
          = (runRecords initState
              [Record.event 0x81 1 10, Record.event 1 1 20]).tasks
            ++ [⟨"_RTOS_", 20, 30, []⟩]
      ∧ parseBinaryLogFile
          [0x81, 1, 10, 0, 0, 0, 0, 0, 0, 0, 0x01, 1, 20, 0, 0, 0, 0, 0, 0, 0,
           0x82, 5, 30, 0, 0, 0, 0, 0, 0, 0]
          = [⟨"TaskID_1", 10, 20, []⟩, ⟨"_RTOS_", 20, 30, []⟩] := by
  decide

/-- Witness for the amended C1: an end event emits only the (non-gap)
task instance, and a start-flagged interrupt-enter with lastEndTime 3
below its timestamp 7 emits the gap [3,7). -/
theorem claim1_witness :
    ((⟨"TaskID_1", 5, 9, []⟩ : TaskData).name ≠ "_RTOS_")
    ∧ TaskData.mk "_RTOS_" 3 7 [] ∈
        (processRecord ⟨[], [], [], none, some 3, [], [], none⟩
          (Record.event 0x82 0 7)).tasks.drop
          (⟨[], [], [], none, some 3, [], [], none⟩ : ParserState).tasks.length :=
  ⟨claim1_amended.1 ⟨[], [], [], none, none, [(1, (5, []))], [], none⟩ 1 1 9
      (by intro k n h; simp [mapGet] at h) (by decide) (by decide)
      ⟨"TaskID_1", 5, 9, []⟩ (by decide),
   claim1_amended.2.2.1 ⟨[], [], [], none, some 3, [], [], none⟩ 0x82 0 7 3
      (Or.inl (by decide)) (by decide) (by decide)⟩

-- C3.

theorem getD_take {α : Type} : ∀ (l : List α) (k i : Nat) (d : α), i < k →
    (l.take k).getD i d = l.getD i d := by
  intro l
  induction l with
  | nil => intro k i d _; simp
  | cons a l ih =>
    intro k i d h
    cases k with
    | zero => omega
    | succ k =>
      cases i with
      | zero => rfl
      | succ i => exact ih k i d (by omega)

theorem readU8_take (l : List Nat) (k i : Nat) (h : i < k) :
    readU8 (l.take k) i = readU8 l i := by
  unfold readU8
  rw [getD_take l k i 0 h]

theorem readU64LE_take (l : List Nat) (k i : Nat) (h : i + 7 < k) :
    readU64LE (l.take k) i = readU64LE l i := by
  unfold readU64LE
  rw [readU8_take l k i (by omega), readU8_take l k (i + 1) (by omega),
    readU8_take l k (i + 2) (by omega), readU8_take l k (i + 3) (by omega),
    readU8_take l k (i + 4) (by omega), readU8_take l k (i + 5) (by omega),
    readU8_take l k (i + 6) (by omega), readU8_take l k (i + 7) (by omega)]

/-- The byte loop equals processing the tokenized record list: every
complete record consumed by the loop is processed in order, and the
loop stops exactly where tokenization stops. -/
theorem parseSteps_eq_runRecords :
    ∀ (fuel : Nat) (s : ParserState) (l : List Nat), l.length ≤ fuel →
      parseSteps fuel s l = runRecords s (tokenizeSteps fuel l) := by
  intro fuel
  induction fuel with
  | zero =>
    intro s l h
    have hl : l = [] := List.eq_nil_of_length_eq_zero (Nat.le_zero.mp h)
    subst hl
    rfl
  | succ f ih =>
    intro s l h
    cases l with
    | nil => rfl
    | cons b rest =>
      simp only [parseSteps, tokenizeSteps]
      by_cases hsetup : 0x70 ≤ readU8 (b :: rest) 0 ∧ readU8 (b :: rest) 0 ≤ 0x7F
      · rw [if_pos hsetup, if_pos hsetup]
        by_cases hlen3 : (b :: rest).length < 3
        · rw [if_pos hlen3, if_pos hlen3]
          rfl
        · rw [if_neg hlen3, if_neg hlen3]
          by_cases hlenN : (b :: rest).length < 3 + readU8 (b :: rest) 2
          · rw [if_pos hlenN, if_pos hlenN]
            rfl
          · rw [if_neg hlenN, if_neg hlenN]
            rw [ih _ _ (by simp only [List.length_drop]; omega)]
            rfl
      · rw [if_neg hsetup, if_neg hsetup]
        by_cases hlen10 : (b :: rest).length < 10
        · rw [if_pos hlen10, if_pos hlen10]
          rfl
        · rw [if_neg hlen10, if_neg hlen10]
          rw [ih _ _ (by simp only [List.length_drop]; omega)]
          rfl

/-- The fuel is irrelevant once it covers the buffer length. -/
theorem tokenizeSteps_congr :
    ∀ (f1 : Nat) (l : List Nat) (f2 : Nat), l.length ≤ f1 → l.length ≤ f2 →
      tokenizeSteps f1 l = tokenizeSteps f2 l := by
  intro f1
  induction f1 with
  | zero =>
    intro l f2 h1 _
    have hl : l = [] := List.eq_nil_of_length_eq_zero (Nat.le_zero.mp h1)
    subst hl
    cases f2 <;> rfl
  | succ f ih =>
    intro l f2 h1 h2
    cases l with
    | nil => cases f2 <;> rfl
    | cons b rest =>
      cases f2 with
      | zero =>
        simp only [List.length_cons] at h2
        omega
      | succ f2 =>
        simp only [tokenizeSteps]
        by_cases hsetup : 0x70 ≤ readU8 (b :: rest) 0 ∧ readU8 (b :: rest) 0 ≤ 0x7F
        · rw [if_pos hsetup, if_pos hsetup]
          by_cases hlen3 : (b :: rest).length < 3
          · rw [if_pos hlen3, if_pos hlen3]
          · rw [if_neg hlen3, if_neg hlen3]
            by_cases hlenN : (b :: rest).length < 3 + readU8 (b :: rest) 2
            · rw [if_pos hlenN, if_pos hlenN]
            · rw [if_neg hlenN, if_neg hlenN]
              rw [ih _ f2 (by simp only [List.length_drop]; omega)
                (by simp only [List.length_drop]; omega)]
        · rw [if_neg hsetup, if_neg hsetup]
          by_cases hlen10 : (b :: rest).length < 10
          · rw [if_pos hlen10, if_pos hlen10]
          · rw [if_neg hlen10, if_neg hlen10]
            rw [ih _ f2 (by simp only [List.length_drop]; omega)
              (by simp only [List.length_drop]; omega)]

/-- Truncating the buffer yields a prefix of the record list: the
records fully contained in the kept bytes are decoded unchanged and
tokenization stops at the first incomplete record. -/
theorem tokenizeSteps_take :
    ∀ (fuel : Nat) (l : List Nat) (k : Nat), l.length ≤ fuel →
      ∃ n, tokenizeSteps fuel (l.take k) = (tokenizeSteps fuel l).take n := by
  intro fuel
  induction fuel with
  | zero =>
    intro l k h
    have hl : l = [] := List.eq_nil_of_length_eq_zero (Nat.le_zero.mp h)
    subst hl
    exact ⟨0, by simp [tokenizeSteps]⟩
  | succ f ih =>
    intro l k h
    cases l with
    | nil => exact ⟨0, by simp [tokenizeSteps]⟩
    | cons b rest =>
      cases k with
      | zero => exact ⟨0, by simp [tokenizeSteps]⟩
      | succ k =>
        rw [List.take_succ_cons]
        simp only [tokenizeSteps]
        rw [show (b :: rest.take k) = (b :: rest).take (k + 1) from rfl]
        have hlen : ((b :: rest).take (k + 1)).length
            = min (k + 1) (b :: rest).length := List.length_take _ _
        rw [readU8_take (b :: rest) (k + 1) 0 (by omega)]
        by_cases hsetup : 0x70 ≤ readU8 (b :: rest) 0 ∧ readU8 (b :: rest) 0 ≤ 0x7F
        · rw [if_pos hsetup, if_pos hsetup]
          by_cases hA : ((b :: rest).take (k + 1)).length < 3
          · rw [if_pos hA]
            exact ⟨0, by simp⟩
          · have hB : ¬(b :: rest).length < 3 := by
              rw [hlen] at hA
              omega
            rw [if_neg hA, if_neg hB,
              readU8_take (b :: rest) (k + 1) 2 (by rw [hlen] at hA; omega)]
            by_cases hC : ((b :: rest).take (k + 1)).length
                < 3 + readU8 (b :: rest) 2
            · rw [if_pos hC]
              exact ⟨0, by simp⟩
            · have hD : ¬(b :: rest).length < 3 + readU8 (b :: rest) 2 := by
                rw [hlen] at hC
                omega
              rw [if_neg hC, if_neg hD,
                readU8_take (b :: rest) (k + 1) 1 (by rw [hlen] at hA; omega),
                List.drop_take, List.drop_take, List.take_take,
                min_eq_left (by rw [hlen] at hC; omega :
                  readU8 (b :: rest) 2 ≤ k + 1 - 3)]
              obtain ⟨n, hn⟩ := ih ((b :: rest).drop (3 + readU8 (b :: rest) 2))
                (k + 1 - (3 + readU8 (b :: rest) 2))
                (by simp only [List.length_drop]; omega)
              exact ⟨n + 1, by rw [List.take_succ_cons, hn]⟩
        · rw [if_neg hsetup, if_neg hsetup]
          by_cases hA : ((b :: rest).take (k + 1)).length < 10
          · rw [if_pos hA]
            exact ⟨0, by simp⟩
          · have hB : ¬(b :: rest).length < 10 := by
              rw [hlen] at hA
              omega
            rw [if_neg hA, if_neg hB,
              readU8_take (b :: rest) (k + 1) 1 (by rw [hlen] at hA; omega),
              readU64LE_take (b :: rest) (k + 1) 2 (by rw [hlen] at hA; omega),
              List.drop_take]
            obtain ⟨n, hn⟩ := ih ((b :: rest).drop 10) (k + 1 - 10)
              (by simp only [List.length_drop]; omega)
            exact ⟨n + 1, by rw [List.take_succ_cons, hn]⟩

/-- C3: decoding a buffer truncated at any byte offset is total by
construction (the decoder is a function) and returns exactly the
instances decoded from the complete records before the truncation
point: the truncated buffer tokenizes to a prefix of the full record
list, and the decode loop output equals running the decoder over that
complete-record prefix, followed by the usual finalization. -/
theorem claim3_truncation (b : List Nat) (k : Nat) :
    parseBinaryLogFile (b.take k)
        = finalizeTasks (runRecords initState (tokenize (b.take k))).tasks
      ∧ ∃ n, tokenize (b.take k) = (tokenize b).take n := by
  constructor
  · unfold parseBinaryLogFile parseLoop tokenize
    rw [parseSteps_eq_runRecords (b.take k).length initState (b.take k) le_rfl]
  · unfold tokenize
    have hcong : tokenizeSteps (b.take k).length (b.take k)
        = tokenizeSteps b.length (b.take k) := by
      apply tokenizeSteps_congr
      · exact le_rfl
      · rw [List.length_take]
        omega
    rw [hcong]
    exact tokenizeSteps_take b.length b k le_rfl

end RtosTrace
